import Mathlib

/-!
Shallow embedding of the npm-daycare policy layer.

The repository ships two Verdaccio plugins:

* `daycare-filter` (storage filter, class `DaycareFilter`): the
  package-metadata filter.  One variant filters by age only
  (`filter_metadata` directly calls `filterPackageMetadata`); the other
  first runs a weekly-download popularity check and short-circuits to an
  emptied document when it fails.
* `daycare-middleware` (class `DaycareMiddleware`): the tarball gate.  It
  parses a version out of the tarball filename, runs the allowlist /
  `@force:` override check and the popularity check, and rejects with a
  404 JSON body when the check fails.

JavaScript objects are embedded as association lists `List (String × _)`
in insertion order (JS string-keyed objects preserve insertion order;
version strings contain dots and therefore are never array indices).
`Option` on a map models the field being `undefined`.  A publish
timestamp string is embedded as `TimeStr`: its JS falsiness (`isEmpty`)
plus the result of `new Date(s).getTime()` (`parseMs`, `none` standing
for `NaN` / Invalid Date).  All JS number arithmetic on timestamps is
over `Int` (exact for the integer millisecond values involved) and the
fractional-hour age is computed in `ℚ`; a comparison against `NaN`
(unparsable date) is `false`, which the embedding makes explicit by case
analysis on `parseMs`.
-/

namespace Daycare

/-- Embedding of a publish-timestamp string: `isEmpty` is the JS
falsiness of the string (empty string, or an absent value), `parseMs` is
`new Date(s).getTime()` in milliseconds with `none` for `NaN`. -/
structure TimeStr where
  isEmpty : Bool
  parseMs : Option Int
deriving DecidableEq, Repr

/-- `const HOUR_MS = 1000 * 60 * 60` (milliseconds per hour). -/
def HOUR_MS : Int := 1000 * 60 * 60

/-- Embedding of a package metadata document.  `α` is the opaque
version-descriptor blob (never examined by the code beyond existence).
Fields other than the four below are carried through every object spread
unchanged and are not modelled.  `none` models an `undefined` field. -/
structure PackageInfo (α : Type) where
  name : String
  versions : Option (List (String × α))
  time : Option (List (String × TimeStr))
  distTags : Option (List (String × String))
deriving DecidableEq, Repr

/-- JS object property read `m[k]` on a string-keyed object. -/
def lookupStr {α : Type} (m : List (String × α)) (k : String) : Option α :=
  (m.find? (fun p => p.1 == k)).map (fun p => p.2)

/-- `Object.keys(m)`. -/
def keysOf {α : Type} (m : List (String × α)) : List String :=
  m.map (fun p => p.1)

/-- JS object property write `m[k] = v`: re-assigning an existing key
keeps its position, a new key is appended at the end. -/
def setKey {α : Type} (m : List (String × α)) (k : String) (v : α) :
    List (String × α) :=
  if m.any (fun p => p.1 == k) then
    m.map (fun p => if p.1 == k then (k, v) else p)
  else m ++ [(k, v)]

/-- Truthiness of an optional string (`undefined` and `""` are falsy). -/
def strTruthy : Option String → Bool
  | some s => !(s == "")
  | none => false

/-- Truthiness of an optional timestamp string. -/
def tsTruthy : Option TimeStr → Bool
  | some t => !t.isEmpty
  | none => false

/-- The age comparison `(now - publishedAt) / HOUR_MS > minAgeHours`,
with the fractional hours computed exactly in `ℚ`. -/
def agePasses (now publishedAt : Int) (minAgeHours : ℚ) : Bool :=
  decide ((((now - publishedAt : Int) : ℚ) / ((HOUR_MS : Int) : ℚ)) > minAgeHours)

/-- `DaycareMiddleware.isVersionOldEnough` (daycare-middleware): fails
closed on a falsy (`!publishTimeIso`) or unparsable (`NaN`) timestamp,
otherwise compares the fractional-hour age strictly against the
threshold. -/
def isVersionOldEnough (minAgeHours : ℚ) (now : Int) (publishTimeIso : TimeStr) : Bool :=
  if publishTimeIso.isEmpty then false
  else
    match publishTimeIso.parseMs with
    | none => false
    | some publishedAt => agePasses now publishedAt minAgeHours

/-- The per-version body of the `Object.keys(versions).forEach` loop of
`DaycareFilter.filterPackageMetadata`: look up the publish time; a falsy
entry (absent key or empty string) is excluded, an unparsable one fails
the `NaN` comparison, otherwise the age policy decides. -/
def versionAllowed (time : List (String × TimeStr)) (minAgeHours : ℚ) (now : Int)
    (v : String) : Bool :=
  match lookupStr time v with
  | none => false
  | some pt =>
    if pt.isEmpty then false
    else
      match pt.parseMs with
      | none => false
      | some publishedAt => agePasses now publishedAt minAgeHours

/-- The entries of `versions` that pass the age policy, in iteration
order (`allowedVersions` / `allowedVersionsList` in the source). -/
def allowedEntries {α : Type} (time : List (String × TimeStr)) (minAgeHours : ℚ)
    (now : Int) (versionsList : List (String × α)) : List (String × α) :=
  versionsList.filter (fun p => versionAllowed time minAgeHours now p.1)

/-- `new Date(time[v]).getTime()` as used by the newest-first comparator
(total by defaulting, though every surviving version has a valid parse). -/
def timeMs (time : List (String × TimeStr)) (v : String) : Int :=
  (((lookupStr time v).bind (fun t => t.parseMs)).getD 0)

/-- One insertion step of a stable descending sort by `key`. -/
def insertDesc (key : String → Int) (x : String) : List String → List String
  | [] => [x]
  | y :: ys => if key y > key x then y :: insertDesc key x ys else x :: y :: ys

/-- Stable sort, largest `key` first.  This is extensionally the result
of JS `Array.prototype.sort` with comparator `(a, b) => key b - key a`
(stable per the ECMAScript specification): any two stable sorts for the
same total preorder agree. -/
def stableSortDesc (key : String → Int) : List String → List String
  | [] => []
  | x :: xs => insertDesc key x (stableSortDesc key xs)

/-- The element of `l` with the largest `key`; on a tie, the one
encountered first in `l`.  Used to characterise the head of
`stableSortDesc`. -/
def firstMaxBy (key : String → Int) : List String → Option String
  | [] => none
  | x :: xs =>
    match firstMaxBy key xs with
    | none => some x
    | some y => if key y > key x then some y else some x

/-- The `dist-tags` filtering loop: keep only tag entries whose version
survived. -/
def tagsKept (distTags : Option (List (String × String)))
    (allowedVersionsList : List String) : List (String × String) :=
  match distTags with
  | none => []
  | some dts => dts.filter (fun p => allowedVersionsList.contains p.2)

/-- One conditional copy of a reserved `time` key:
`if (time.created) filteredTime.created = time.created`. -/
def basePart (key : String) (o : Option TimeStr) : List (String × TimeStr) :=
  match o with
  | some t => if !t.isEmpty then [(key, t)] else []
  | none => []

/-- The base of the rebuilt `time` object: `created` and `modified`
copied over when truthy. -/
def baseTime (time : List (String × TimeStr)) : List (String × TimeStr) :=
  basePart "created" (lookupStr time "created") ++
  basePart "modified" (lookupStr time "modified")

/-- One assignment of the `time`-rebuilding loop:
`if (time[v]) filteredTime[v] = time[v]`. -/
def writeTime (time : List (String × TimeStr)) (m : List (String × TimeStr))
    (v : String) : List (String × TimeStr) :=
  match lookupStr time v with
  | some t => if !t.isEmpty then setKey m v t else m
  | none => m

/-- The `forEach` loop writing surviving versions into the rebuilt
`time` object, starting from the `created`/`modified` base. -/
def buildTime (time : List (String × TimeStr)) (vs : List String) :
    List (String × TimeStr) :=
  vs.foldl (writeTime time) (baseTime time)

/-- Body of `DaycareFilter.filterPackageMetadata` (daycare-filter; the
age-only and the popularity variant have byte-identical bodies) once a
`time` object is present: keep the versions passing the age policy,
filter `dist-tags` down to survivors, short-circuit to an emptied
document (the spread keeps `time` untouched) when no version survives,
resynthesize a truthy `latest` from the newest-by-publish-time survivor
when the original one was dropped (the in-place `Array.prototype.sort`
also reorders the list that the `time` rebuild then iterates), and
rebuild `time` from `created`, `modified` and the survivors. -/
def filterWithTime {α : Type} (minAgeHours : ℚ) (now : Int)
    (pkg : PackageInfo α) (time : List (String × TimeStr)) : PackageInfo α :=
  let versionsList := pkg.versions.getD []
  let allowedVersions := allowedEntries time minAgeHours now versionsList
  let allowedVersionsList := keysOf allowedVersions
  let filteredDistTags0 := tagsKept pkg.distTags allowedVersionsList
  if allowedVersionsList.isEmpty then
    { pkg with versions := some [], distTags := some [] }
  else
    let origLatest := pkg.distTags.bind (fun dts => lookupStr dts "latest")
    let doResynth := strTruthy origLatest
      && !strTruthy (lookupStr filteredDistTags0 "latest")
      && !allowedVersionsList.isEmpty
    let sortedVersions := stableSortDesc (timeMs time) allowedVersionsList
    let filteredDistTags :=
      if doResynth then setKey filteredDistTags0 "latest" (sortedVersions.headD "")
      else filteredDistTags0
    let finalList := if doResynth then sortedVersions else allowedVersionsList
    { pkg with
        versions := some allowedVersions,
        distTags := some filteredDistTags,
        time := some (buildTime time finalList) }

/-- `DaycareFilter.filterPackageMetadata`: the early return
`if (!time) return packageInfo`, then the body above on the extracted
`time` object. -/
def filterPackageMetadata {α : Type} (minAgeHours : ℚ) (now : Int)
    (pkg : PackageInfo α) : PackageInfo α :=
  match pkg.time with
  | none => pkg
  | some time => filterWithTime minAgeHours now pkg time

/-- The survivor set in iteration order (`allowedVersionsList` in the
source). -/
def survivorKeys {α : Type} (minAgeHours : ℚ) (now : Int) (pkg : PackageInfo α)
    (tm : List (String × TimeStr)) : List String :=
  keysOf (allowedEntries tm minAgeHours now (pkg.versions.getD []))

/-- The guard of the `latest` resynthesis branch:
`distTags?.latest && !filteredDistTags.latest && allowedVersionsList.length > 0`. -/
def resynthLatest {α : Type} (minAgeHours : ℚ) (now : Int) (pkg : PackageInfo α)
    (tm : List (String × TimeStr)) : Bool :=
  strTruthy (pkg.distTags.bind (fun dts => lookupStr dts "latest"))
    && !strTruthy (lookupStr (tagsKept pkg.distTags (survivorKeys minAgeHours now pkg tm)) "latest")
    && !(survivorKeys minAgeHours now pkg tm).isEmpty

/-- The `dist-tags` object of the non-empty filter branch, after the
possible `latest` resynthesis. -/
def finalDistTags {α : Type} (minAgeHours : ℚ) (now : Int) (pkg : PackageInfo α)
    (tm : List (String × TimeStr)) : List (String × String) :=
  if resynthLatest minAgeHours now pkg tm then
    setKey (tagsKept pkg.distTags (survivorKeys minAgeHours now pkg tm)) "latest"
      ((stableSortDesc (timeMs tm) (survivorKeys minAgeHours now pkg tm)).headD "")
  else tagsKept pkg.distTags (survivorKeys minAgeHours now pkg tm)

/-- The survivor list in the order the `time` rebuild iterates it: the
in-place sort of the resynthesis branch reorders it. -/
def finalTimeOrder {α : Type} (minAgeHours : ℚ) (now : Int) (pkg : PackageInfo α)
    (tm : List (String × TimeStr)) : List String :=
  if resynthLatest minAgeHours now pkg tm then
    stableSortDesc (timeMs tm) (survivorKeys minAgeHours now pkg tm)
  else survivorKeys minAgeHours now pkg tm

/-- Equality of two documents as JSON values.  A JSON object is an
unordered collection of key/value pairs, so the `time` map is compared
by key lookup together with presence of the field itself (the embedding
keeps JS insertion order, which the in-place sort of the resynthesis
branch can permute inside the rebuilt `time` map without changing the
mapping); `versions` and `dist-tags` are compared by the stricter list
equality. -/
def DocEq {α : Type} (d e : PackageInfo α) : Prop :=
  d.name = e.name ∧ d.versions = e.versions ∧ d.distTags = e.distTags ∧
  d.time.isSome = e.time.isSome ∧
  ∀ k, d.time.bind (fun m => lookupStr m k) = e.time.bind (fun m => lookupStr m k)

/-- Outcome of one query of the download-statistics endpoint, as
distinguished by the source: a parsed JSON body (whose `downloads` field
may be absent, modelled by `none`), an explicit HTTP 404, another
non-success status (`throw new Error`), a thrown network error, or a
body that fails to parse as JSON. -/
inductive StatsResponse where
  | success (downloads : Option Int)
  | notFound
  | httpError
  | networkError
  | malformedBody
deriving DecidableEq, Repr

/-- `getWeeklyDownloads` (identical policy in both plugins): 404 maps to
`0`; a successful body yields `data.downloads || 0`; every other failure
lands in the `catch` and returns the configured minimum itself. -/
def getWeeklyDownloads (minWeeklyDownloads : Int) (resp : StatsResponse) : Int :=
  match resp with
  | .success downloads => downloads.getD 0
  | .notFound => 0
  | .httpError => minWeeklyDownloads
  | .networkError => minWeeklyDownloads
  | .malformedBody => minWeeklyDownloads

/-- `DaycareFilter.filter_metadata` (popularity variant): query the
oracle for the package name; below the threshold, return the document
with `versions` and `dist-tags` emptied; otherwise run the age filter.
`resp` is the oracle outcome for `pkg.name` during this invocation. -/
def filter_metadata {α : Type} (minAgeHours : ℚ) (minWeeklyDownloads : Int)
    (now : Int) (resp : StatsResponse) (pkg : PackageInfo α) : PackageInfo α :=
  let weeklyDownloads := getWeeklyDownloads minWeeklyDownloads resp
  if weeklyDownloads < minWeeklyDownloads then
    { pkg with versions := some [], distTags := some [] }
  else
    filterPackageMetadata minAgeHours now pkg

/-- JS `String.prototype.startsWith`. -/
def strStartsWith (s p : String) : Bool :=
  p.toList.isPrefixOf s.toList

/-- `packageName.substring(7)`: strip the `@force:` marker. -/
def stripForce (s : String) : String :=
  String.mk (s.toList.drop 7)

/-- The allowlist as built by the `DaycareMiddleware` constructor:
`new Set()`, never added to afterwards. -/
def initAllowlistPackages : List String := []

/-- `allowManualOverride` as set by the constructor. -/
def initAllowManualOverride : Bool := true

/-- `DaycareMiddleware.isPackageAllowlisted`: strip the `@force:` marker
when manual override is on, consult the allowlist, then accept any
`@force:`-prefixed name. -/
def isPackageAllowlisted (allowlistPackages : List String)
    (allowManualOverride : Bool) (packageName : String) : Bool :=
  let actualPackageName :=
    if allowManualOverride && strStartsWith packageName "@force:" then
      stripForce packageName
    else packageName
  if allowlistPackages.contains actualPackageName then true
  else if allowManualOverride && strStartsWith packageName "@force:" then true
  else false

/-- `DaycareMiddleware.shouldBlockVersion`: never block an allowlisted
or `@force:`-overridden package; otherwise block exactly when the weekly
download count is strictly below the threshold.  (The surrounding
`try`/`catch` returns `false` on an exception; no further age check is
performed here.)  `version` only feeds log output. -/
def shouldBlockVersion (allowlistPackages : List String)
    (allowManualOverride : Bool) (minWeeklyDownloads : Int)
    (resp : StatsResponse) (packageName version : String) : Bool :=
  if isPackageAllowlisted allowlistPackages allowManualOverride packageName then
    false
  else
    let weeklyDownloads := getWeeklyDownloads minWeeklyDownloads resp
    if weeklyDownloads < minWeeklyDownloads then true else false

/-- The rejection the tarball middleware sends when a version is
blocked. -/
structure RejectResponse where
  status : Nat
  error : String
  reason : String
deriving DecidableEq, Repr

/-- The tarball-route handler of `register_middlewares`, after the
filename regex has produced `version`: either a 404 rejection with the
fixed `error` string and the templated `reason`, or `none` for
`next()` (forward to the host). -/
def tarballGate (allowlistPackages : List String) (allowManualOverride : Bool)
    (minWeeklyDownloads : Int) (resp : StatsResponse)
    (packageName version : String) : Option RejectResponse :=
  if shouldBlockVersion allowlistPackages allowManualOverride minWeeklyDownloads
      resp packageName version then
    some
      { status := 404
        error := "Version not found"
        reason := "Version " ++ version ++ " is blocked by quarantine filter" }
  else none

/-! Example documents used to instantiate the claim theorems at concrete
inputs.  Timestamps are in milliseconds; `360000000` (100 hours) is the
current time used throughout, with a 48-hour threshold. -/

/-- Time map with one old version (100h) and one fresh version (2h). -/
def exTimeA : List (String × TimeStr) :=
  [("created", ⟨false, some 0⟩), ("modified", ⟨false, some 352800000⟩),
   ("1.0.0", ⟨false, some 0⟩), ("2.0.0", ⟨false, some 352800000⟩)]

/-- Document with an old version, a fresh version, and a version with no
timestamp. -/
def exDocA : PackageInfo Nat :=
  { name := "example"
    versions := some [("1.0.0", 1), ("2.0.0", 2), ("3.0.0", 3)]
    time := some exTimeA
    distTags := some [("latest", "2.0.0")] }

/-- Document without a publish-time map but with a dangling dist-tag. -/
def exDocNoTime : PackageInfo Nat :=
  { name := "example"
    versions := some []
    time := none
    distTags := some [("latest", "1.0.0")] }

/-- Time map whose only version is 1 hour old. -/
def exTimeFresh : List (String × TimeStr) :=
  [("created", ⟨false, some 0⟩), ("1.0.0", ⟨false, some 356400000⟩)]

/-- Document whose only version is too fresh, so no version survives. -/
def exDocFresh : PackageInfo Nat :=
  { name := "fresh"
    versions := some [("1.0.0", 1)]
    time := some exTimeFresh
    distTags := some [("latest", "1.0.0")] }

/-- Time map with two surviving versions carrying the exact same
publish timestamp (99h) and a fresh latest (1h). -/
def exTimeTie : List (String × TimeStr) :=
  [("1.0.0", ⟨false, some 7200000⟩), ("1.1.0", ⟨false, some 7200000⟩),
   ("2.0.0", ⟨false, some 356400000⟩)]

/-- Document whose `latest` points at the fresh version and whose two
survivors are tied on publish time. -/
def exDocTie : PackageInfo Nat :=
  { name := "tie"
    versions := some [("1.0.0", 1), ("1.1.0", 2), ("2.0.0", 3)]
    time := some exTimeTie
    distTags := some [("latest", "2.0.0")] }

/-! Helper lemmas about the embedded JS primitives. -/

theorem agePasses_intCast (now t h : Int) :
    agePasses now t ((h : Int) : ℚ) = decide (h * HOUR_MS < now - t) := by
  unfold agePasses
  rw [decide_eq_decide, gt_iff_lt, lt_div_iff₀ (by norm_num [HOUR_MS])]
  constructor
  · intro h1
    exact_mod_cast h1
  · intro h1
    exact_mod_cast h1

theorem lookupStr_nil {α : Type} (k : String) :
    lookupStr ([] : List (String × α)) k = none := rfl

theorem lookupStr_cons {α : Type} (a : String) (b : α) (m : List (String × α))
    (k : String) :
    lookupStr ((a, b) :: m) k = if a = k then some b else lookupStr m k := by
  by_cases h : a = k
  · simp [lookupStr, List.find?, h]
  · have hb : (a == k) = false := by simp [h]
    simp [lookupStr, List.find?, hb, h]

theorem lookupStr_append {α : Type} (m₁ m₂ : List (String × α)) (k : String) :
    lookupStr (m₁ ++ m₂) k = (lookupStr m₁ k).or (lookupStr m₂ k) := by
  induction m₁ with
  | nil => simp [lookupStr_nil]
  | cons p m ih =>
    rw [List.cons_append]
    obtain ⟨a, b⟩ := p
    rw [lookupStr_cons, lookupStr_cons]
    by_cases h : a = k
    · simp [h]
    · simp [h, ih]

theorem lookupStr_map_overwrite {α : Type} (m : List (String × α)) (k : String)
    (v : α) (h : m.any (fun p => p.1 == k) = true) :
    lookupStr (m.map (fun p => if p.1 == k then (k, v) else p)) k = some v := by
  induction m with
  | nil => simp at h
  | cons p m ih =>
    obtain ⟨a, b⟩ := p
    by_cases hak : a = k
    · simp only [List.map_cons]
      rw [if_pos (by simp [hak]), lookupStr_cons, if_pos rfl]
    · simp only [List.map_cons]
      rw [if_neg (by simp [hak]), lookupStr_cons, if_neg hak]
      simp only [List.any_cons] at h
      rcases Bool.or_eq_true_iff.mp h with h1 | h2
      · exact absurd (by simpa using h1) hak
      · exact ih h2

theorem lookupStr_map_overwrite_ne {α : Type} (m : List (String × α))
    (k a : String) (v : α) (hne : a ≠ k) :
    lookupStr (m.map (fun p => if p.1 == k then (k, v) else p)) a
      = lookupStr m a := by
  induction m with
  | nil => rfl
  | cons p m ih =>
    obtain ⟨c, b⟩ := p
    by_cases hck : c = k
    · simp only [List.map_cons]
      rw [if_pos (by simp [hck]), lookupStr_cons, lookupStr_cons,
        if_neg (fun hh : k = a => hne hh.symm),
        if_neg (fun hh : c = a => hne (hck ▸ hh).symm)]
      exact ih
    · simp only [List.map_cons]
      rw [if_neg (by simp [hck]), lookupStr_cons, lookupStr_cons]
      by_cases hca : c = a
      · rw [if_pos hca, if_pos hca]
      · rw [if_neg hca, if_neg hca]
        exact ih

theorem lookupStr_eq_none_of_any_eq_false {α : Type} (m : List (String × α))
    (k : String) (h : m.any (fun p => p.1 == k) = false) :
    lookupStr m k = none := by
  unfold lookupStr
  rw [List.find?_eq_none.mpr]
  · rfl
  · intro p hp hpk
    rw [List.any_eq_false] at h
    exact h p hp hpk

theorem lookupStr_setKey_self {α : Type} (m : List (String × α)) (k : String)
    (v : α) : lookupStr (setKey m k v) k = some v := by
  unfold setKey
  by_cases h : m.any (fun p => p.1 == k) = true
  · rw [if_pos h]
    exact lookupStr_map_overwrite m k v h
  · rw [if_neg h, lookupStr_append,
      lookupStr_eq_none_of_any_eq_false m k (Bool.eq_false_iff.mpr h),
      Option.none_or, lookupStr_cons, if_pos rfl]

theorem lookupStr_setKey_ne {α : Type} (m : List (String × α)) (k a : String)
    (v : α) (hne : a ≠ k) : lookupStr (setKey m k v) a = lookupStr m a := by
  unfold setKey
  by_cases h : m.any (fun p => p.1 == k) = true
  · rw [if_pos h]
    exact lookupStr_map_overwrite_ne m k a v hne
  · rw [if_neg h, lookupStr_append, lookupStr_cons, lookupStr_nil,
      if_neg (fun hh : k = a => hne hh.symm)]
    cases lookupStr m a <;> rfl

theorem mem_setKey {α : Type} (m : List (String × α)) (k : String) (v : α)
    (p : String × α) (hp : p ∈ setKey m k v) : p = (k, v) ∨ p ∈ m := by
  unfold setKey at hp
  by_cases h : m.any (fun q => q.1 == k) = true
  · rw [if_pos h] at hp
    obtain ⟨q, hq, hqp⟩ := List.mem_map.mp hp
    by_cases hqk : q.1 = k
    · left
      rw [← hqp, if_pos (by simp [hqk])]
    · right
      rw [← hqp, if_neg (by simp [hqk])]
      exact hq
  · rw [if_neg h] at hp
    rcases List.mem_append.mp hp with h1 | h2
    · right
      exact h1
    · left
      simpa using h2

/-! The stable descending sort and its head. -/

theorem mem_insertDesc (key : String → Int) (x : String) (l : List String)
    (a : String) : a ∈ insertDesc key x l ↔ a = x ∨ a ∈ l := by
  induction l with
  | nil => simp [insertDesc]
  | cons y ys ih =>
    unfold insertDesc
    by_cases h : key y > key x
    · rw [if_pos h, List.mem_cons, ih, List.mem_cons]
      tauto
    · rw [if_neg h, List.mem_cons]

theorem mem_stableSortDesc (key : String → Int) (l : List String) (a : String) :
    a ∈ stableSortDesc key l ↔ a ∈ l := by
  induction l with
  | nil => simp [stableSortDesc]
  | cons x xs ih =>
    unfold stableSortDesc
    rw [mem_insertDesc, ih]
    simp

theorem firstMaxBy_cons (key : String → Int) (x : String) (xs : List String) :
    firstMaxBy key (x :: xs) =
      match firstMaxBy key xs with
      | none => some x
      | some y => if key y > key x then some y else some x := rfl

theorem head?_insertDesc (key : String → Int) (x : String) (l : List String) :
    (insertDesc key x l).head? =
      match l.head? with
      | none => some x
      | some y => if key y > key x then some y else some x := by
  cases l with
  | nil => rfl
  | cons y ys =>
    unfold insertDesc
    by_cases h : key y > key x
    · simp [h]
    · simp [h]

theorem head?_stableSortDesc (key : String → Int) (l : List String) :
    (stableSortDesc key l).head? = firstMaxBy key l := by
  induction l with
  | nil => rfl
  | cons x xs ih =>
    unfold stableSortDesc
    rw [head?_insertDesc, ih, firstMaxBy_cons]

theorem firstMaxBy_mem (key : String → Int) (l : List String) (w : String)
    (h : firstMaxBy key l = some w) : w ∈ l := by
  induction l with
  | nil => simp [firstMaxBy] at h
  | cons x xs ih =>
    rw [firstMaxBy_cons] at h
    cases hm : firstMaxBy key xs with
    | none =>
      simp only [hm] at h
      simp only [Option.some.injEq] at h
      subst h
      exact List.mem_cons_self x xs
    | some y =>
      simp only [hm] at h
      by_cases hk : key y > key x
      · rw [if_pos hk] at h
        simp only [Option.some.injEq] at h
        subst h
        exact List.mem_cons_of_mem x (ih hm)
      · rw [if_neg hk] at h
        simp only [Option.some.injEq] at h
        subst h
        exact List.mem_cons_self x xs

theorem firstMaxBy_isSome (key : String → Int) (l : List String)
    (h : l ≠ []) : ∃ w, firstMaxBy key l = some w := by
  cases l with
  | nil => exact absurd rfl h
  | cons x xs =>
    rw [firstMaxBy_cons]
    cases firstMaxBy key xs with
    | none => exact ⟨x, rfl⟩
    | some y =>
      by_cases hk : key y > key x
      · exact ⟨y, by simp [hk]⟩
      · exact ⟨x, by simp [hk]⟩

theorem firstMaxBy_le (key : String → Int) (l : List String) (w : String)
    (h : firstMaxBy key l = some w) : ∀ u ∈ l, key u ≤ key w := by
  induction l generalizing w with
  | nil => simp
  | cons x xs ih =>
    rw [firstMaxBy_cons] at h
    intro u hu
    cases hm : firstMaxBy key xs with
    | none =>
      simp only [hm] at h
      simp only [Option.some.injEq] at h
      subst h
      have hxs : xs = [] := by
        by_contra hne
        obtain ⟨w', hw'⟩ := firstMaxBy_isSome key xs hne
        rw [hw'] at hm
        exact Option.noConfusion hm
      subst hxs
      simp only [List.mem_singleton] at hu
      rw [hu]
    | some y =>
      simp only [hm] at h
      by_cases hk : key y > key x
      · rw [if_pos hk] at h
        simp only [Option.some.injEq] at h
        subst h
        rcases List.mem_cons.mp hu with h1 | h2
        · rw [h1]
          exact le_of_lt hk
        · exact ih y hm u h2
      · rw [if_neg hk] at h
        simp only [Option.some.injEq] at h
        subst h
        rcases List.mem_cons.mp hu with h1 | h2
        · rw [h1]
        · exact le_trans (ih y hm u h2) (le_of_not_lt hk)

theorem headD_stableSortDesc_mem (key : String → Int) (l : List String)
    (h : l ≠ []) (d : String) : (stableSortDesc key l).headD d ∈ l := by
  obtain ⟨w, hw⟩ := firstMaxBy_isSome key l h
  rw [List.headD_eq_head?, head?_stableSortDesc, hw]
  exact firstMaxBy_mem key l w hw

/-! Lookup characterisations of the rebuilt time object. -/

theorem lookupStr_basePart (key : String) (o : Option TimeStr) (k : String) :
    lookupStr (basePart key o) k =
      if k = key ∧ tsTruthy o = true then o else none := by
  cases o with
  | none => simp [basePart, lookupStr_nil, tsTruthy]
  | some t =>
    unfold basePart tsTruthy
    cases he : t.isEmpty
    · by_cases hk : k = key
      · subst hk
        simp [he, lookupStr_cons]
      · simp [he, lookupStr_cons, lookupStr_nil, hk, Ne.symm hk]
    · simp [he, lookupStr_nil]

theorem lookupStr_baseTime (time : List (String × TimeStr)) (k : String) :
    lookupStr (baseTime time) k =
      if k = "created" ∧ tsTruthy (lookupStr time "created") = true then
        lookupStr time "created"
      else if k = "modified" ∧ tsTruthy (lookupStr time "modified") = true then
        lookupStr time "modified"
      else none := by
  unfold baseTime
  rw [lookupStr_append, lookupStr_basePart, lookupStr_basePart]
  by_cases h1 : k = "created" ∧ tsTruthy (lookupStr time "created") = true
  · rw [if_pos h1, if_pos h1]
    cases hc : lookupStr time "created" with
    | none =>
      rw [hc] at h1
      simp [tsTruthy] at h1
    | some t => simp
  · rw [if_neg h1, Option.none_or, if_neg h1]

theorem lookupStr_writeTime_self (time m : List (String × TimeStr)) (k : String) :
    lookupStr (writeTime time m k) k =
      if tsTruthy (lookupStr time k) = true then lookupStr time k
      else lookupStr m k := by
  unfold writeTime tsTruthy
  cases hl : lookupStr time k with
  | none => simp
  | some t =>
    cases he : t.isEmpty
    · simp [he, hl, lookupStr_setKey_self]
    · simp [he]

theorem lookupStr_writeTime_ne (time m : List (String × TimeStr)) (v k : String)
    (h : k ≠ v) : lookupStr (writeTime time m v) k = lookupStr m k := by
  unfold writeTime
  cases lookupStr time v with
  | none => rfl
  | some t =>
    cases he : t.isEmpty
    · simp [he, lookupStr_setKey_ne _ _ _ _ h]
    · simp [he]

theorem lookupStr_foldl_writeTime (time : List (String × TimeStr))
    (vs : List String) (m : List (String × TimeStr)) (k : String) :
    lookupStr (vs.foldl (writeTime time) m) k =
      if k ∈ vs ∧ tsTruthy (lookupStr time k) = true then lookupStr time k
      else lookupStr m k := by
  induction vs generalizing m with
  | nil => simp
  | cons x xs ih =>
    rw [List.foldl_cons, ih]
    by_cases hmem : k ∈ xs ∧ tsTruthy (lookupStr time k) = true
    · rw [if_pos hmem, if_pos ⟨List.mem_cons_of_mem x hmem.1, hmem.2⟩]
    · rw [if_neg hmem]
      by_cases hxk : k = x
      · subst hxk
        rw [lookupStr_writeTime_self]
        cases htr : tsTruthy (lookupStr time k)
        · simp
        · simp
      · rw [lookupStr_writeTime_ne time m x k hxk, if_neg]
        intro hc
        rcases List.mem_cons.mp hc.1 with hq | hq
        · exact hxk hq
        · exact hmem ⟨hq, hc.2⟩

theorem lookupStr_buildTime (time : List (String × TimeStr)) (vs : List String)
    (k : String) :
    lookupStr (buildTime time vs) k =
      if k ∈ vs ∧ tsTruthy (lookupStr time k) = true then lookupStr time k
      else lookupStr (baseTime time) k :=
  lookupStr_foldl_writeTime time vs (baseTime time) k

/-! Membership facts about the survivor computation. -/

theorem mem_allowedEntries {α : Type} (time : List (String × TimeStr)) (q : ℚ)
    (now : Int) (l : List (String × α)) (p : String × α) :
    p ∈ allowedEntries time q now l ↔
      p ∈ l ∧ versionAllowed time q now p.1 = true :=
  List.mem_filter

theorem mem_keysOf_allowedEntries {α : Type} (time : List (String × TimeStr))
    (q : ℚ) (now : Int) (l : List (String × α)) (v : String) :
    v ∈ keysOf (allowedEntries time q now l) ↔
      v ∈ keysOf l ∧ versionAllowed time q now v = true := by
  unfold keysOf allowedEntries
  constructor
  · intro h
    obtain ⟨p, hp, hpv⟩ := List.mem_map.mp h
    obtain ⟨hpl, hpa⟩ := List.mem_filter.mp hp
    subst hpv
    exact ⟨List.mem_map.mpr ⟨p, hpl, rfl⟩, hpa⟩
  · intro h
    obtain ⟨p, hp, hpv⟩ := List.mem_map.mp h.1
    subst hpv
    exact List.mem_map.mpr ⟨p, List.mem_filter.mpr ⟨hp, h.2⟩, rfl⟩

theorem mem_tagsKept (dts : Option (List (String × String))) (l : List String)
    (p : String × String) (hp : p ∈ tagsKept dts l) : p.2 ∈ l := by
  unfold tagsKept at hp
  cases dts with
  | none => simp at hp
  | some d =>
    have hc := (List.mem_filter.mp hp).2
    exact List.elem_iff.mp hc

theorem mem_tagsKept_orig (dts : List (String × String)) (l : List String)
    (p : String × String) (hp : p ∈ tagsKept (some dts) l) : p ∈ dts := by
  unfold tagsKept at hp
  exact (List.mem_filter.mp hp).1

/-! Branch lemmas for the metadata filter. -/

theorem filterPackageMetadata_time_none {α : Type} (q : ℚ) (now : Int)
    (pkg : PackageInfo α) (h : pkg.time = none) :
    filterPackageMetadata q now pkg = pkg := by
  unfold filterPackageMetadata
  rw [h]

theorem filterPackageMetadata_time_some {α : Type} (q : ℚ) (now : Int)
    (pkg : PackageInfo α) (tm : List (String × TimeStr))
    (h : pkg.time = some tm) :
    filterPackageMetadata q now pkg = filterWithTime q now pkg tm := by
  unfold filterPackageMetadata
  rw [h]

theorem filterWithTime_empty {α : Type} (q : ℚ) (now : Int)
    (pkg : PackageInfo α) (tm : List (String × TimeStr))
    (he : survivorKeys q now pkg tm = []) :
    filterWithTime q now pkg tm =
      { pkg with versions := some [], distTags := some [] } := by
  unfold survivorKeys at he
  unfold filterWithTime
  simp only [he, List.isEmpty_nil, if_true]

theorem filterWithTime_main {α : Type} (q : ℚ) (now : Int)
    (pkg : PackageInfo α) (tm : List (String × TimeStr))
    (hne : survivorKeys q now pkg tm ≠ []) :
    filterWithTime q now pkg tm =
      { pkg with
          versions := some (allowedEntries tm q now (pkg.versions.getD [])),
          distTags := some (finalDistTags q now pkg tm),
          time := some (buildTime tm (finalTimeOrder q now pkg tm)) } := by
  have he : (survivorKeys q now pkg tm).isEmpty = false := by
    cases hl : survivorKeys q now pkg tm
    · exact absurd hl hne
    · rfl
  unfold survivorKeys at he
  unfold filterWithTime
  simp only [he, Bool.false_eq_true, if_false]
  unfold finalDistTags finalTimeOrder resynthLatest survivorKeys
  rw [he]

/-! Structural consequences shared by several claims. -/

theorem versionAllowed_truthy (tm : List (String × TimeStr)) (q : ℚ) (now : Int)
    (v : String) (h : versionAllowed tm q now v = true) :
    tsTruthy (lookupStr tm v) = true := by
  unfold versionAllowed at h
  cases hl : lookupStr tm v with
  | none =>
    simp only [hl] at h
    exact absurd h (by simp)
  | some pt =>
    simp only [hl] at h
    unfold tsTruthy
    simp only [Bool.not_eq_true']
    cases he : pt.isEmpty
    · exact rfl
    · rw [he] at h
      simp at h

theorem versionAllowed_congr (tm1 tm2 : List (String × TimeStr)) (q : ℚ)
    (now : Int) (v : String) (h : lookupStr tm1 v = lookupStr tm2 v) :
    versionAllowed tm1 q now v = versionAllowed tm2 q now v := by
  unfold versionAllowed
  rw [h]

theorem mem_finalTimeOrder {α : Type} (q : ℚ) (now : Int) (pkg : PackageInfo α)
    (tm : List (String × TimeStr)) (v : String) :
    v ∈ finalTimeOrder q now pkg tm ↔ v ∈ survivorKeys q now pkg tm := by
  unfold finalTimeOrder
  by_cases hr : resynthLatest q now pkg tm = true
  · rw [if_pos hr]
    exact mem_stableSortDesc _ _ _
  · rw [if_neg hr]

theorem mem_finalDistTags_val {α : Type} (q : ℚ) (now : Int)
    (pkg : PackageInfo α) (tm : List (String × TimeStr)) (p : String × String)
    (hs : survivorKeys q now pkg tm ≠ [])
    (hp : p ∈ finalDistTags q now pkg tm) :
    p.2 ∈ survivorKeys q now pkg tm := by
  unfold finalDistTags at hp
  by_cases hr : resynthLatest q now pkg tm = true
  · rw [if_pos hr] at hp
    rcases mem_setKey _ _ _ _ hp with he | hm
    · rw [he]
      exact headD_stableSortDesc_mem _ _ hs _
    · exact mem_tagsKept _ _ _ hm
  · rw [if_neg hr] at hp
    exact mem_tagsKept _ _ _ hp

theorem docEq_refl {α : Type} (d : PackageInfo α) : DocEq d d :=
  ⟨rfl, rfl, rfl, rfl, fun _ => rfl⟩

theorem notAllowed_absent {α : Type} (q : ℚ) (now : Int) (pkg : PackageInfo α)
    (tm : List (String × TimeStr)) (v : String) (htime : pkg.time = some tm)
    (hna : versionAllowed tm q now v = false) :
    v ∉ keysOf ((filterPackageMetadata q now pkg).versions.getD []) ∧
    ∀ p ∈ (filterPackageMetadata q now pkg).distTags.getD [], p.2 ≠ v := by
  rw [filterPackageMetadata_time_some q now pkg tm htime]
  by_cases hs : survivorKeys q now pkg tm = []
  · rw [filterWithTime_empty q now pkg tm hs]
    exact ⟨by simp [keysOf], by intro p hp; simp at hp⟩
  · rw [filterWithTime_main q now pkg tm hs]
    constructor
    · intro hv
      have hmem := (mem_keysOf_allowedEntries tm q now _ v).mp hv
      rw [hna] at hmem
      simp at hmem
    · intro p hp hpv
      have hmem : p.2 ∈ survivorKeys q now pkg tm :=
        mem_finalDistTags_val q now pkg tm p hs hp
      rw [hpv] at hmem
      unfold survivorKeys at hmem
      have hva := (mem_keysOf_allowedEntries tm q now _ v).mp hmem
      rw [hna] at hva
      simp at hva

theorem allowed_present {α : Type} (q : ℚ) (now : Int) (pkg : PackageInfo α)
    (tm : List (String × TimeStr)) (v : String) (htime : pkg.time = some tm)
    (ha : versionAllowed tm q now v = true)
    (hv : v ∈ keysOf (pkg.versions.getD [])) :
    v ∈ keysOf ((filterPackageMetadata q now pkg).versions.getD []) := by
  rw [filterPackageMetadata_time_some q now pkg tm htime]
  have hmem : v ∈ survivorKeys q now pkg tm :=
    (mem_keysOf_allowedEntries tm q now _ v).mpr ⟨hv, ha⟩
  have hs : survivorKeys q now pkg tm ≠ [] := by
    intro h
    rw [h] at hmem
    simp at hmem
  rw [filterWithTime_main q now pkg tm hs]
  exact hmem

/-! Idempotence machinery: refiltering a filtered document changes
nothing.  `T1` below abbreviates the rebuilt time map
`buildTime tm (finalTimeOrder q now pkg tm)` of the first pass. -/

theorem tsTruthy_gate (o : Option TimeStr) :
    tsTruthy (if tsTruthy o = true then o else none) = tsTruthy o := by
  cases htr : tsTruthy o
  · rfl
  · rw [if_pos rfl]
    exact htr

theorem lookupStr_T1_reserved {α : Type} (q : ℚ) (now : Int)
    (pkg : PackageInfo α) (tm : List (String × TimeStr)) (k0 : String)
    (hk : k0 = "created" ∨ k0 = "modified") :
    lookupStr (buildTime tm (finalTimeOrder q now pkg tm)) k0 =
      if tsTruthy (lookupStr tm k0) = true then lookupStr tm k0 else none := by
  rw [lookupStr_buildTime]
  by_cases hmem : k0 ∈ finalTimeOrder q now pkg tm ∧
      tsTruthy (lookupStr tm k0) = true
  · rw [if_pos hmem, if_pos hmem.2]
  · rw [if_neg hmem, lookupStr_baseTime]
    rcases hk with h | h
    · subst h
      by_cases ht : tsTruthy (lookupStr tm "created") = true
      · rw [if_pos ⟨rfl, ht⟩, if_pos ht]
      · rw [if_neg (fun hc => ht hc.2), if_neg ht,
          if_neg (fun hc => absurd hc.1 (by decide))]
    · subst h
      rw [if_neg (fun hc => absurd hc.1 (by decide))]
      by_cases ht : tsTruthy (lookupStr tm "modified") = true
      · rw [if_pos ⟨rfl, ht⟩, if_pos ht]
      · rw [if_neg (fun hc => ht hc.2), if_neg ht]

theorem lookupStr_baseTime_T1 {α : Type} (q : ℚ) (now : Int)
    (pkg : PackageInfo α) (tm : List (String × TimeStr)) (k : String) :
    lookupStr (baseTime (buildTime tm (finalTimeOrder q now pkg tm))) k
      = lookupStr (baseTime tm) k := by
  rw [lookupStr_baseTime, lookupStr_baseTime,
    lookupStr_T1_reserved q now pkg tm "created" (Or.inl rfl),
    lookupStr_T1_reserved q now pkg tm "modified" (Or.inr rfl),
    tsTruthy_gate, tsTruthy_gate]
  by_cases h1 : k = "created" ∧ tsTruthy (lookupStr tm "created") = true
  · rw [if_pos h1, if_pos h1, if_pos h1.2]
  · rw [if_neg h1, if_neg h1]
    by_cases h2 : k = "modified" ∧ tsTruthy (lookupStr tm "modified") = true
    · rw [if_pos h2, if_pos h2, if_pos h2.2]
    · rw [if_neg h2, if_neg h2]

theorem lookupStr_buildTime_idem {α : Type} (q : ℚ) (now : Int)
    (pkg : PackageInfo α) (tm : List (String × TimeStr)) (k : String) :
    lookupStr (buildTime (buildTime tm (finalTimeOrder q now pkg tm))
        (survivorKeys q now pkg tm)) k
      = lookupStr (buildTime tm (finalTimeOrder q now pkg tm)) k := by
  by_cases hA : k ∈ survivorKeys q now pkg tm ∧
      tsTruthy (lookupStr (buildTime tm (finalTimeOrder q now pkg tm)) k) = true
  · rw [lookupStr_buildTime, if_pos hA]
  · rw [lookupStr_buildTime, if_neg hA, lookupStr_baseTime_T1]
    rw [lookupStr_buildTime]
    by_cases hB : k ∈ finalTimeOrder q now pkg tm ∧
        tsTruthy (lookupStr tm k) = true
    · exfalso
      apply hA
      refine ⟨(mem_finalTimeOrder q now pkg tm k).mp hB.1, ?_⟩
      rw [lookupStr_buildTime, if_pos hB]
      exact hB.2
    · rw [if_neg hB]

theorem lookupStr_T1_survivor {α : Type} (q : ℚ) (now : Int)
    (pkg : PackageInfo α) (tm : List (String × TimeStr)) (v : String)
    (hv : v ∈ survivorKeys q now pkg tm) :
    lookupStr (buildTime tm (finalTimeOrder q now pkg tm)) v = lookupStr tm v := by
  have hva : versionAllowed tm q now v = true := by
    unfold survivorKeys at hv
    exact ((mem_keysOf_allowedEntries tm q now _ v).mp hv).2
  have ht := versionAllowed_truthy tm q now v hva
  rw [lookupStr_buildTime,
    if_pos ⟨(mem_finalTimeOrder q now pkg tm v).mpr hv, ht⟩]

theorem allowedEntries_idem {α : Type} (q : ℚ) (now : Int)
    (pkg : PackageInfo α) (tm : List (String × TimeStr)) :
    allowedEntries (buildTime tm (finalTimeOrder q now pkg tm)) q now
        (allowedEntries tm q now (pkg.versions.getD []))
      = allowedEntries tm q now (pkg.versions.getD []) := by
  unfold allowedEntries
  apply List.filter_eq_self.mpr
  intro p hp
  have hva : versionAllowed tm q now p.1 = true := (List.mem_filter.mp hp).2
  have hv1 : p.1 ∈ survivorKeys q now pkg tm := by
    unfold survivorKeys keysOf allowedEntries
    exact List.mem_map.mpr ⟨p, hp, rfl⟩
  rw [versionAllowed_congr _ tm q now p.1 (lookupStr_T1_survivor q now pkg tm p.1 hv1)]
  exact hva

theorem survivorKeys_idem {α : Type} (q : ℚ) (now : Int) (pkg : PackageInfo α)
    (tm : List (String × TimeStr)) :
    survivorKeys q now
        { pkg with
            versions := some (allowedEntries tm q now (pkg.versions.getD [])),
            distTags := some (finalDistTags q now pkg tm),
            time := some (buildTime tm (finalTimeOrder q now pkg tm)) }
        (buildTime tm (finalTimeOrder q now pkg tm))
      = survivorKeys q now pkg tm := by
  unfold survivorKeys
  simp only [Option.getD_some]
  rw [allowedEntries_idem]

theorem tagsKept_refilter {α : Type} (q : ℚ) (now : Int) (pkg : PackageInfo α)
    (tm : List (String × TimeStr)) (hs : survivorKeys q now pkg tm ≠ []) :
    tagsKept (some (finalDistTags q now pkg tm)) (survivorKeys q now pkg tm)
      = finalDistTags q now pkg tm := by
  unfold tagsKept
  apply List.filter_eq_self.mpr
  intro p hp
  have hmem := mem_finalDistTags_val q now pkg tm p hs hp
  exact List.elem_iff.mpr hmem

theorem resynthLatest_idem {α : Type} (q : ℚ) (now : Int) (pkg : PackageInfo α)
    (tm : List (String × TimeStr)) (hs : survivorKeys q now pkg tm ≠ []) :
    resynthLatest q now
        { pkg with
            versions := some (allowedEntries tm q now (pkg.versions.getD [])),
            distTags := some (finalDistTags q now pkg tm),
            time := some (buildTime tm (finalTimeOrder q now pkg tm)) }
        (buildTime tm (finalTimeOrder q now pkg tm))
      = false := by
  unfold resynthLatest
  rw [survivorKeys_idem q now pkg tm]
  simp only [Option.some_bind]
  rw [tagsKept_refilter q now pkg tm hs]
  cases strTruthy (lookupStr (finalDistTags q now pkg tm) "latest") <;> simp

theorem filterPackageMetadata_idem {α : Type} (q : ℚ) (now : Int)
    (pkg : PackageInfo α) :
    DocEq (filterPackageMetadata q now (filterPackageMetadata q now pkg))
          (filterPackageMetadata q now pkg) := by
  cases htime : pkg.time with
  | none =>
    rw [filterPackageMetadata_time_none q now pkg htime,
      filterPackageMetadata_time_none q now pkg htime]
    exact docEq_refl _
  | some tm =>
    rw [filterPackageMetadata_time_some q now pkg tm htime]
    by_cases hs : survivorKeys q now pkg tm = []
    · rw [filterWithTime_empty q now pkg tm hs]
      rw [filterPackageMetadata_time_some q now
        { pkg with versions := some [], distTags := some [] } tm htime]
      rw [filterWithTime_empty q now
        { pkg with versions := some [], distTags := some [] } tm rfl]
      exact docEq_refl _
    · rw [filterWithTime_main q now pkg tm hs]
      set T1 := buildTime tm (finalTimeOrder q now pkg tm) with hT1
      set A1 := allowedEntries tm q now (pkg.versions.getD []) with hA1
      set F1 := finalDistTags q now pkg tm with hF1
      set D1 : PackageInfo α :=
        { pkg with versions := some A1, distTags := some F1, time := some T1 }
        with hD1
      rw [filterPackageMetadata_time_some q now D1 T1 (by rw [hD1])]
      have hsk : survivorKeys q now D1 T1 = survivorKeys q now pkg tm := by
        rw [hD1, hT1, hA1, hF1]
        exact survivorKeys_idem q now pkg tm
      have hs2 : survivorKeys q now D1 T1 ≠ [] := by
        rw [hsk]
        exact hs
      have hres : resynthLatest q now D1 T1 = false := by
        rw [hD1, hT1, hA1, hF1]
        exact resynthLatest_idem q now pkg tm hs
      have hord : finalTimeOrder q now D1 T1 = survivorKeys q now pkg tm := by
        unfold finalTimeOrder
        rw [hres, hsk]
        simp only [Bool.false_eq_true, if_false]
      rw [filterWithTime_main q now D1 T1 hs2]
      refine ⟨rfl, ?_, ?_, rfl, ?_⟩
      · show some (allowedEntries T1 q now (D1.versions.getD [])) = some A1
        have hv : D1.versions.getD [] = A1 := by
          rw [hD1]
          rfl
        rw [hv, hT1, hA1]
        rw [allowedEntries_idem q now pkg tm]
      · show some (finalDistTags q now D1 T1) = some F1
        have h1 : finalDistTags q now D1 T1 =
            if resynthLatest q now D1 T1 then
              setKey (tagsKept D1.distTags (survivorKeys q now D1 T1)) "latest"
                ((stableSortDesc (timeMs T1) (survivorKeys q now D1 T1)).headD "")
            else tagsKept D1.distTags (survivorKeys q now D1 T1) := rfl
        rw [h1, hres]
        simp only [Bool.false_eq_true, if_false]
        rw [hsk, hF1]
        rw [tagsKept_refilter q now pkg tm hs]
      · intro k
        show lookupStr (buildTime T1 (finalTimeOrder q now D1 T1)) k
          = lookupStr T1 k
        rw [hord, hT1]
        exact lookupStr_buildTime_idem q now pkg tm k

/-! Claim theorems. -/

/-- C2: the age policy predicate returns false on an empty (or
otherwise falsy, i.e. absent) timestamp and on an unparsable one; on a
parsed timestamp it returns true exactly when the fractional-hour age
`(now - publishedAt) / 3600000` is strictly above the threshold, so a
version published exactly at the threshold boundary is still hidden. -/
theorem c2_age_policy_fails_closed_and_strict (q : ℚ) (now publishedAt dt : Int)
    (p : Option Int) :
    HOUR_MS = 3600000 ∧
    isVersionOldEnough q now ⟨true, p⟩ = false ∧
    isVersionOldEnough q now ⟨false, none⟩ = false ∧
    (isVersionOldEnough q now ⟨false, some publishedAt⟩ = true ↔
      ((now - publishedAt : Int) : ℚ) / ((HOUR_MS : Int) : ℚ) > q) ∧
    isVersionOldEnough ((dt : Int) : ℚ) (publishedAt + dt * HOUR_MS)
      ⟨false, some publishedAt⟩ = false := by
  refine ⟨rfl, rfl, rfl, ?_, ?_⟩
  · show agePasses now publishedAt q = true ↔ _
    unfold agePasses
    exact decide_eq_true_iff
  · show agePasses (publishedAt + dt * HOUR_MS) publishedAt ((dt : Int) : ℚ) = false
    rw [agePasses_intCast]
    simp only [decide_eq_false_iff_not]
    omega

/-- C4: the popularity oracle returns 0 on an explicit 404 of the
statistics endpoint and the configured minimum itself on every other
failure (HTTP error status, network error, malformed body), so the
strict `<` threshold comparison never blocks a package purely because
the oracle is unavailable. -/
theorem c4_oracle_failure_policy (minWeeklyDownloads : Int) :
    getWeeklyDownloads minWeeklyDownloads .notFound = 0 ∧
    getWeeklyDownloads minWeeklyDownloads .httpError = minWeeklyDownloads ∧
    getWeeklyDownloads minWeeklyDownloads .networkError = minWeeklyDownloads ∧
    getWeeklyDownloads minWeeklyDownloads .malformedBody = minWeeklyDownloads ∧
    ¬(getWeeklyDownloads minWeeklyDownloads .httpError < minWeeklyDownloads) ∧
    ¬(getWeeklyDownloads minWeeklyDownloads .networkError < minWeeklyDownloads) ∧
    ¬(getWeeklyDownloads minWeeklyDownloads .malformedBody < minWeeklyDownloads) := by
  refine ⟨rfl, rfl, rfl, rfl, ?_, ?_, ?_⟩ <;> simp [getWeeklyDownloads]

/-- C10: the allowlist is constructed empty (and the source never adds
to it), so any package name that does not start with the `@force:`
override marker is not allowlisted: the marker is the only effective
bypass. -/
theorem c10_allowlist_empty_no_bypass (name : String)
    (h : strStartsWith name "@force:" = false) :
    initAllowlistPackages = [] ∧
    isPackageAllowlisted initAllowlistPackages initAllowManualOverride name
      = false := by
  refine ⟨rfl, ?_⟩
  unfold isPackageAllowlisted initAllowlistPackages initAllowManualOverride
  simp [h]

theorem c10_witness :
    strStartsWith "lodash" "@force:" = false ∧
    (initAllowlistPackages = [] ∧
     isPackageAllowlisted initAllowlistPackages initAllowManualOverride "lodash"
       = false) :=
  ⟨by decide, c10_allowlist_empty_no_bypass "lodash" (by decide)⟩

/-- C3 (evidence for the divergence): with the override-marked package
name, download count coming from an explicit 404 (hence 0) and threshold
5000, the tarball gate does not block, yet the storage filter
`filter_metadata` — whose source never consults the allowlist or the
marker — empties the very same package to `versions = {}`, although the
input document had a version.  The override bypass is thus not applied
identically in both components. -/
theorem c3_force_bypass_divergence :
    shouldBlockVersion initAllowlistPackages initAllowManualOverride 5000
        .notFound "@force:left-pad" "1.0.0" = false ∧
    (filter_metadata (48 : ℚ) 5000 0 .notFound
        { name := "@force:left-pad"
          versions := some [("1.0.0", (0 : Nat))]
          time := some [("1.0.0", ⟨false, some 0⟩)]
          distTags := some [("latest", "1.0.0")] }).versions = some [] ∧
    ({ name := "@force:left-pad"
       versions := some [("1.0.0", (0 : Nat))]
       time := some [("1.0.0", ⟨false, some 0⟩)]
       distTags := some [("latest", "1.0.0")] } : PackageInfo Nat).versions
      = some [("1.0.0", (0 : Nat))] := by
  refine ⟨by decide, rfl, rfl⟩

/-- C6 (counterexample): with the original `latest` (2.0.0) too fresh to
survive and the two survivors 1.0.0 and 1.1.0 carrying exactly the same
publish timestamp, the storage filter sets `latest` to `1.0.0` — the
tied survivor encountered first in iteration order (stable sort, index
0) — not to `1.1.0`, the one encountered last, as the claim states. -/
theorem c6_counterexample :
    survivorKeys (48 : ℚ) 360000000 exDocTie exTimeTie = ["1.0.0", "1.1.0"] ∧
    timeMs exTimeTie "1.0.0" = timeMs exTimeTie "1.1.0" ∧
    lookupStr ((filterPackageMetadata (48 : ℚ) 360000000 exDocTie).distTags.getD [])
      "latest" = some "1.0.0" ∧
    ¬ lookupStr ((filterPackageMetadata (48 : ℚ) 360000000 exDocTie).distTags.getD [])
      "latest" = some "1.1.0" := by
  have hv1 : versionAllowed exTimeTie (48 : ℚ) 360000000 "1.0.0" = true := by
    show agePasses 360000000 7200000 (48 : ℚ) = true
    rw [show (48 : ℚ) = ((48 : Int) : ℚ) by norm_num, agePasses_intCast]
    decide
  have hv2 : versionAllowed exTimeTie (48 : ℚ) 360000000 "1.1.0" = true := by
    show agePasses 360000000 7200000 (48 : ℚ) = true
    rw [show (48 : ℚ) = ((48 : Int) : ℚ) by norm_num, agePasses_intCast]
    decide
  have hv3 : versionAllowed exTimeTie (48 : ℚ) 360000000 "2.0.0" = false := by
    show agePasses 360000000 356400000 (48 : ℚ) = false
    rw [show (48 : ℚ) = ((48 : Int) : ℚ) by norm_num, agePasses_intCast]
    decide
  have hsurv : survivorKeys (48 : ℚ) 360000000 exDocTie exTimeTie = ["1.0.0", "1.1.0"] := by
    unfold survivorKeys allowedEntries keysOf exDocTie
    simp [List.filter_cons, hv1, hv2, hv3]
  have hne : survivorKeys (48 : ℚ) 360000000 exDocTie exTimeTie ≠ [] := by
    rw [hsurv]
    decide
  have hlatest : lookupStr ((filterPackageMetadata (48 : ℚ) 360000000 exDocTie).distTags.getD [])
      "latest" = some "1.0.0" := by
    rw [filterPackageMetadata_time_some _ _ _ exTimeTie rfl,
      filterWithTime_main _ _ _ _ hne]
    show lookupStr (finalDistTags (48 : ℚ) 360000000 exDocTie exTimeTie) "latest"
      = some "1.0.0"
    unfold finalDistTags resynthLatest
    rw [hsurv]
    decide
  refine ⟨hsurv, by decide, hlatest, ?_⟩
  rw [hlatest]
  decide

/-- C6 amended: for the storage filter, whenever the resynthesis branch
fires (original `latest` truthy, dropped from the filtered tags,
non-empty survivor set), the output `latest` is the surviving version
with the maximum publish timestamp and, on an exact timestamp tie, the
tied version encountered FIRST in iteration order (`firstMaxBy`; the
code takes index 0 of a stable descending sort).  The middleware variant
of the filter instead picks the semver-largest survivor and is not
covered by this statement. -/
theorem c6_latest_resynthesis {α : Type} (q : ℚ) (now : Int)
    (pkg : PackageInfo α) (tm : List (String × TimeStr))
    (htime : pkg.time = some tm)
    (hr : resynthLatest q now pkg tm = true) :
    ∃ w, firstMaxBy (timeMs tm) (survivorKeys q now pkg tm) = some w ∧
      lookupStr ((filterPackageMetadata q now pkg).distTags.getD []) "latest"
        = some w ∧
      w ∈ survivorKeys q now pkg tm ∧
      ∀ u ∈ survivorKeys q now pkg tm, timeMs tm u ≤ timeMs tm w := by
  have hs : survivorKeys q now pkg tm ≠ [] := by
    intro h
    unfold resynthLatest at hr
    rw [h] at hr
    simp at hr
  obtain ⟨w, hw⟩ := firstMaxBy_isSome (timeMs tm) _ hs
  refine ⟨w, hw, ?_, firstMaxBy_mem _ _ _ hw, firstMaxBy_le _ _ _ hw⟩
  rw [filterPackageMetadata_time_some _ _ _ _ htime, filterWithTime_main _ _ _ _ hs]
  show lookupStr (finalDistTags q now pkg tm) "latest" = some w
  unfold finalDistTags
  rw [if_pos hr, lookupStr_setKey_self]
  congr 1
  rw [List.headD_eq_head?, head?_stableSortDesc, hw]
  rfl

theorem c6_witness :
    (exDocTie.time = some exTimeTie ∧
     resynthLatest (48 : ℚ) 360000000 exDocTie exTimeTie = true) ∧
    (∃ w, firstMaxBy (timeMs exTimeTie)
        (survivorKeys (48 : ℚ) 360000000 exDocTie exTimeTie) = some w ∧
      lookupStr ((filterPackageMetadata (48 : ℚ) 360000000 exDocTie).distTags.getD [])
        "latest" = some w ∧
      w ∈ survivorKeys (48 : ℚ) 360000000 exDocTie exTimeTie ∧
      ∀ u ∈ survivorKeys (48 : ℚ) 360000000 exDocTie exTimeTie,
        timeMs exTimeTie u ≤ timeMs exTimeTie w) := by
  have hv1 : versionAllowed exTimeTie (48 : ℚ) 360000000 "1.0.0" = true := by
    show agePasses 360000000 7200000 (48 : ℚ) = true
    rw [show (48 : ℚ) = ((48 : Int) : ℚ) by norm_num, agePasses_intCast]
    decide
  have hv2 : versionAllowed exTimeTie (48 : ℚ) 360000000 "1.1.0" = true := by
    show agePasses 360000000 7200000 (48 : ℚ) = true
    rw [show (48 : ℚ) = ((48 : Int) : ℚ) by norm_num, agePasses_intCast]
    decide
  have hv3 : versionAllowed exTimeTie (48 : ℚ) 360000000 "2.0.0" = false := by
    show agePasses 360000000 356400000 (48 : ℚ) = false
    rw [show (48 : ℚ) = ((48 : Int) : ℚ) by norm_num, agePasses_intCast]
    decide
  have hsurv : survivorKeys (48 : ℚ) 360000000 exDocTie exTimeTie = ["1.0.0", "1.1.0"] := by
    unfold survivorKeys allowedEntries keysOf exDocTie
    simp [List.filter_cons, hv1, hv2, hv3]
  have hr : resynthLatest (48 : ℚ) 360000000 exDocTie exTimeTie = true := by
    unfold resynthLatest
    rw [hsurv]
    decide
  exact ⟨⟨rfl, hr⟩,
    c6_latest_resynthesis (48 : ℚ) 360000000 exDocTie exTimeTie rfl hr⟩

/-- C8 (counterexample): for the tarball request `left-pad-0.0.1.tgz`
with 3 weekly downloads against threshold 5000, the rejection is a 404
whose `reason` is the fixed template naming only the version — the
package name `left-pad` does not occur in it (nor does the word
`popularity`), contradicting the claim that the reason names the
offending package name and the popularity policy. -/
theorem c8_counterexample :
    tarballGate initAllowlistPackages initAllowManualOverride 5000
        (.success (some 3)) "left-pad" "0.0.1" =
      some { status := 404, error := "Version not found",
             reason := "Version 0.0.1 is blocked by quarantine filter" } ∧
    ¬ List.IsInfix "left-pad".toList
        "Version 0.0.1 is blocked by quarantine filter".toList ∧
    ¬ List.IsInfix "popularity".toList
        "Version 0.0.1 is blocked by quarantine filter".toList := by
  refine ⟨by decide, by decide, by decide⟩

/-- C8 amended: every blocked tarball request is answered with HTTP 404
and a JSON body whose `error` field is the fixed string and whose
`reason` field is the template naming the offending version (which
occurs in it verbatim); the package name and the policy name are not
part of the body. -/
theorem c8_rejection_contract (name version : String) (minWeeklyDownloads : Int)
    (resp : StatsResponse)
    (hna : isPackageAllowlisted initAllowlistPackages initAllowManualOverride name
      = false)
    (hlt : getWeeklyDownloads minWeeklyDownloads resp < minWeeklyDownloads) :
    tarballGate initAllowlistPackages initAllowManualOverride minWeeklyDownloads
        resp name version =
      some { status := 404, error := "Version not found",
             reason := "Version " ++ version ++ " is blocked by quarantine filter" } ∧
    List.IsInfix version.toList
      ("Version " ++ version ++ " is blocked by quarantine filter").toList := by
  constructor
  · unfold tarballGate shouldBlockVersion
    rw [hna]
    simp [hlt]
  · exact ⟨"Version ".toList, " is blocked by quarantine filter".toList, rfl⟩

/-- C1: for every document with a publish-time map, every threshold and
every fixed current time, a version whose timestamp is missing from the
time map, or whose fractional-hour age is at most the threshold, is
absent from the filtered `versions` and from every filtered dist-tag
value; a version of the document whose age is strictly greater than the
threshold is present in the filtered `versions`. -/
theorem c1_age_filter_membership {α : Type} (q : ℚ) (now t : Int)
    (pkg : PackageInfo α) (tm : List (String × TimeStr)) (v : String)
    (htime : pkg.time = some tm) :
    (lookupStr tm v = none →
      v ∉ keysOf ((filterPackageMetadata q now pkg).versions.getD []) ∧
      ∀ p ∈ (filterPackageMetadata q now pkg).distTags.getD [], p.2 ≠ v) ∧
    (lookupStr tm v = some ⟨false, some t⟩ →
      ((now - t : Int) : ℚ) / ((HOUR_MS : Int) : ℚ) ≤ q →
      v ∉ keysOf ((filterPackageMetadata q now pkg).versions.getD []) ∧
      ∀ p ∈ (filterPackageMetadata q now pkg).distTags.getD [], p.2 ≠ v) ∧
    (lookupStr tm v = some ⟨false, some t⟩ →
      ((now - t : Int) : ℚ) / ((HOUR_MS : Int) : ℚ) > q →
      v ∈ keysOf (pkg.versions.getD []) →
      v ∈ keysOf ((filterPackageMetadata q now pkg).versions.getD [])) := by
  refine ⟨?_, ?_, ?_⟩
  · intro hl
    apply notAllowed_absent q now pkg tm v htime
    unfold versionAllowed
    simp only [hl]
  · intro hl hle
    apply notAllowed_absent q now pkg tm v htime
    unfold versionAllowed
    simp only [hl]
    show agePasses now t q = false
    unfold agePasses
    simp only [decide_eq_false_iff_not]
    exact not_lt.mpr hle
  · intro hl hgt hv
    apply allowed_present q now pkg tm v htime _ hv
    unfold versionAllowed
    simp only [hl]
    show agePasses now t q = true
    unfold agePasses
    exact decide_eq_true hgt

theorem c1_witness :
    (exDocA.time = some exTimeA ∧
     lookupStr exTimeA "3.0.0" = none ∧
     lookupStr exTimeA "2.0.0" = some ⟨false, some 352800000⟩ ∧
     ((360000000 - 352800000 : Int) : ℚ) / ((HOUR_MS : Int) : ℚ) ≤ (48 : ℚ) ∧
     lookupStr exTimeA "1.0.0" = some ⟨false, some 0⟩ ∧
     ((360000000 - 0 : Int) : ℚ) / ((HOUR_MS : Int) : ℚ) > (48 : ℚ) ∧
     "1.0.0" ∈ keysOf (exDocA.versions.getD [])) ∧
    ("3.0.0" ∉ keysOf ((filterPackageMetadata (48 : ℚ) 360000000 exDocA).versions.getD []) ∧
     ∀ p ∈ (filterPackageMetadata (48 : ℚ) 360000000 exDocA).distTags.getD [],
       p.2 ≠ "3.0.0") ∧
    ("2.0.0" ∉ keysOf ((filterPackageMetadata (48 : ℚ) 360000000 exDocA).versions.getD []) ∧
     ∀ p ∈ (filterPackageMetadata (48 : ℚ) 360000000 exDocA).distTags.getD [],
       p.2 ≠ "2.0.0") ∧
    "1.0.0" ∈ keysOf ((filterPackageMetadata (48 : ℚ) 360000000 exDocA).versions.getD []) := by
  have hage1 : ((360000000 - 352800000 : Int) : ℚ) / ((HOUR_MS : Int) : ℚ) ≤ (48 : ℚ) := by
    norm_num [HOUR_MS]
  have hage2 : ((360000000 - 0 : Int) : ℚ) / ((HOUR_MS : Int) : ℚ) > (48 : ℚ) := by
    norm_num [HOUR_MS]
  refine ⟨⟨rfl, by decide, by decide, hage1, by decide, hage2, by decide⟩, ?_, ?_, ?_⟩
  · exact (c1_age_filter_membership (48 : ℚ) 360000000 0 exDocA exTimeA
      "3.0.0" rfl).1 (by decide)
  · exact (c1_age_filter_membership (48 : ℚ) 360000000 352800000 exDocA
      exTimeA "2.0.0" rfl).2.1 (by decide) hage1
  · exact (c1_age_filter_membership (48 : ℚ) 360000000 0 exDocA exTimeA
      "1.0.0" rfl).2.2 (by decide) hage2 (by decide)

/-- C5 (counterexample): a document without a publish-time map is
returned unchanged, so its dangling dist-tag (`latest` pointing at
`1.0.0` while `versions` is empty) survives into the output,
contradicting the claim for every input document. -/
theorem c5_counterexample :
    ("latest", "1.0.0") ∈ (filterPackageMetadata (48 : ℚ) 0 exDocNoTime).distTags.getD [] ∧
    "1.0.0" ∉ keysOf ((filterPackageMetadata (48 : ℚ) 0 exDocNoTime).versions.getD []) := by
  rw [filterPackageMetadata_time_none _ _ _ rfl]
  exact ⟨by decide, by decide⟩

/-- C5 amended: for every input document that does have a publish-time
map, every value of the filtered dist-tags (including a resynthesized
`latest`) is a key of the filtered versions.  (A document without a time
map passes through unchanged and may keep a dangling tag.) -/
theorem c5_no_dangling_dist_tag {α : Type} (q : ℚ) (now : Int)
    (pkg : PackageInfo α) (tm : List (String × TimeStr))
    (htime : pkg.time = some tm) :
    ∀ p ∈ (filterPackageMetadata q now pkg).distTags.getD [],
      p.2 ∈ keysOf ((filterPackageMetadata q now pkg).versions.getD []) := by
  rw [filterPackageMetadata_time_some _ _ _ _ htime]
  by_cases hs : survivorKeys q now pkg tm = []
  · rw [filterWithTime_empty _ _ _ _ hs]
    intro p hp
    simp at hp
  · rw [filterWithTime_main _ _ _ _ hs]
    intro p hp
    show p.2 ∈ keysOf (allowedEntries tm q now (pkg.versions.getD []))
    exact mem_finalDistTags_val q now pkg tm p hs hp

theorem c5_witness :
    exDocA.time = some exTimeA ∧
    ∀ p ∈ (filterPackageMetadata (48 : ℚ) 360000000 exDocA).distTags.getD [],
      p.2 ∈ keysOf ((filterPackageMetadata (48 : ℚ) 360000000 exDocA).versions.getD []) :=
  ⟨rfl, c5_no_dangling_dist_tag (48 : ℚ) 360000000 exDocA exTimeA rfl⟩

/-- C7 (counterexample): when no version survives, the returned minimal
document keeps the whole original time map — the entry of the
filtered-out version `1.0.0` is still present — instead of reducing it
to only `created` and `modified` as the claim states. -/
theorem c7_counterexample :
    (filterPackageMetadata (48 : ℚ) 360000000 exDocFresh).versions = some [] ∧
    (filterPackageMetadata (48 : ℚ) 360000000 exDocFresh).distTags = some [] ∧
    (filterPackageMetadata (48 : ℚ) 360000000 exDocFresh).time = some exTimeFresh ∧
    lookupStr exTimeFresh "1.0.0" = some ⟨false, some 356400000⟩ := by
  have hva : versionAllowed exTimeFresh (48 : ℚ) 360000000 "1.0.0" = false := by
    show agePasses 360000000 356400000 (48 : ℚ) = false
    rw [show (48 : ℚ) = ((48 : Int) : ℚ) by norm_num, agePasses_intCast]
    decide
  have hs : survivorKeys (48 : ℚ) 360000000 exDocFresh exTimeFresh = [] := by
    unfold survivorKeys allowedEntries keysOf exDocFresh
    simp [List.filter_cons, hva]
  rw [filterPackageMetadata_time_some _ _ _ exTimeFresh rfl,
    filterWithTime_empty _ _ _ _ hs]
  exact ⟨rfl, rfl, rfl, by decide⟩

/-- C7 amended: both minimal-document paths — the popularity-threshold
failure in `filter_metadata` and the empty-survivor case of the age
filter — return the document with `versions` and `dist-tags` emptied
and every other field unchanged; in particular the `time` map is left
exactly as in the input, not reduced to `created`/`modified`. -/
theorem c7_minimal_document {α : Type} (q : ℚ) (minWeeklyDownloads now : Int)
    (resp : StatsResponse) (pkg : PackageInfo α) (tm : List (String × TimeStr)) :
    (getWeeklyDownloads minWeeklyDownloads resp < minWeeklyDownloads →
      filter_metadata q minWeeklyDownloads now resp pkg =
        { pkg with versions := some [], distTags := some [] }) ∧
    (pkg.time = some tm → survivorKeys q now pkg tm = [] →
      filterPackageMetadata q now pkg =
        { pkg with versions := some [], distTags := some [] }) := by
  constructor
  · intro h
    unfold filter_metadata
    simp [h]
  · intro ht hs
    rw [filterPackageMetadata_time_some _ _ _ _ ht, filterWithTime_empty _ _ _ _ hs]

theorem c7_witness :
    (getWeeklyDownloads 5000 (.success (some 3)) < 5000 ∧
     filter_metadata (48 : ℚ) 5000 360000000 (.success (some 3)) exDocFresh =
       { exDocFresh with versions := some [], distTags := some [] }) ∧
    (exDocFresh.time = some exTimeFresh ∧
     survivorKeys (48 : ℚ) 360000000 exDocFresh exTimeFresh = [] ∧
     filterPackageMetadata (48 : ℚ) 360000000 exDocFresh =
       { exDocFresh with versions := some [], distTags := some [] }) := by
  have hva : versionAllowed exTimeFresh (48 : ℚ) 360000000 "1.0.0" = false := by
    show agePasses 360000000 356400000 (48 : ℚ) = false
    rw [show (48 : ℚ) = ((48 : Int) : ℚ) by norm_num, agePasses_intCast]
    decide
  have hs : survivorKeys (48 : ℚ) 360000000 exDocFresh exTimeFresh = [] := by
    unfold survivorKeys allowedEntries keysOf exDocFresh
    simp [List.filter_cons, hva]
  exact ⟨⟨by decide,
      (c7_minimal_document (48 : ℚ) 5000 360000000 (.success (some 3))
        exDocFresh exTimeFresh).1 (by decide)⟩,
    ⟨rfl, hs,
      (c7_minimal_document (48 : ℚ) 5000 360000000 (.success (some 3))
        exDocFresh exTimeFresh).2 rfl hs⟩⟩

theorem c8_witness :
    (isPackageAllowlisted initAllowlistPackages initAllowManualOverride "left-pad"
        = false ∧
     getWeeklyDownloads 5000 (.success (some 3)) < 5000) ∧
    (tarballGate initAllowlistPackages initAllowManualOverride 5000
        (.success (some 3)) "left-pad" "0.0.1" =
      some { status := 404, error := "Version not found",
             reason := "Version " ++ "0.0.1" ++ " is blocked by quarantine filter" } ∧
     List.IsInfix "0.0.1".toList
       ("Version " ++ "0.0.1" ++ " is blocked by quarantine filter").toList) :=
  ⟨⟨by decide, by decide⟩,
   c8_rejection_contract "left-pad" "0.0.1" 5000 (.success (some 3))
     (by decide) (by decide)⟩

/-- C9: the metadata filter is idempotent.  For every document, age
threshold, fixed current time and fixed oracle answer, refiltering an
already-filtered document yields the same document as a JSON value: the
`versions` and `dist-tags` lists are unchanged on the nose, and the
`time` field has the same presence and the same key/value mapping (its
key order can differ after a `latest` resynthesis, because the in-place
sort of the first pass reorders the list the `time` rebuild iterates;
JSON objects are unordered, so the documents are equal).  The statement
covers both the age-only filter and the popularity variant. -/
theorem c9_filter_idempotent {α : Type} (q : ℚ) (minWeeklyDownloads now : Int)
    (resp : StatsResponse) (pkg : PackageInfo α) :
    DocEq (filterPackageMetadata q now (filterPackageMetadata q now pkg))
          (filterPackageMetadata q now pkg) ∧
    DocEq (filter_metadata q minWeeklyDownloads now resp
            (filter_metadata q minWeeklyDownloads now resp pkg))
          (filter_metadata q minWeeklyDownloads now resp pkg) := by
  refine ⟨filterPackageMetadata_idem q now pkg, ?_⟩
  unfold filter_metadata
  by_cases hd : getWeeklyDownloads minWeeklyDownloads resp < minWeeklyDownloads
  · simp only [if_pos hd]
    exact docEq_refl _
  · simp only [if_neg hd]
    exact filterPackageMetadata_idem q now pkg

end Daycare
